import Mathlib

/-!
Verification of the zod-prisma-types generator core: the `ExtendedDMMFModel`
class (field partitioning, directive extraction, import-set construction) and
the `ExtendedDMMFSchemaField` class (verb matching, arg-name derivation,
model linking, arg-type imports, custom-arg-type synthesis).

Strings are embedded as `List Char` so that every operation is an executable
structural recursion mirroring the JavaScript string semantics used by the
source (`String.prototype.includes`, `String.prototype.replace` with a string
pattern, `String.prototype.split`, `Set` insertion-order deduplication).
-/

abbrev Str := List Char

/-- Single apostrophe character, as a one-element string. -/
def ap : Str := [Char.ofNat 39]

/-- Single double-quote character, as a one-element string. -/
def qt : Str := [Char.ofNat 34]

/-- ASCII word character, the JavaScript regex class backslash-w. -/
def wordChar (c : Char) : Bool :=
  (Char.ofNat 97 ≤ c && c ≤ Char.ofNat 122) ||
  (Char.ofNat 65 ≤ c && c ≤ Char.ofNat 90) ||
  (Char.ofNat 48 ≤ c && c ≤ Char.ofNat 57) ||
  c = Char.ofNat 95

/-- Character class of the directive payload and of the inner statement
pattern in the source: word chars, space, both quote styles, braces, slash,
comma, semicolon, dot and star. -/
def classChar (c : Char) : Bool :=
  wordChar c || c = Char.ofNat 32 || c = Char.ofNat 34 || c = Char.ofNat 39 ||
  c = Char.ofNat 123 || c = Char.ofNat 125 || c = Char.ofNat 47 ||
  c = Char.ofNat 44 || c = Char.ofNat 59 || c = Char.ofNat 46 || c = Char.ofNat 42

/-- Test whether `p` is a leading segment of `t`. -/
def isPre : Str → Str → Bool
  | [], _ => true
  | _ :: _, [] => false
  | a :: as, b :: bs => a = b && isPre as bs

/-- JavaScript `t.includes(p)`: `p` occurs contiguously somewhere in `t`. -/
def jsIncludes (t p : Str) : Bool :=
  match t with
  | [] => p.isEmpty
  | _ :: rest => isPre p t || jsIncludes rest p

/-- JavaScript `t.replace(pat, "")` with a string pattern: remove the first
occurrence of `pat`, leave `t` unchanged when `pat` does not occur. -/
def replaceFirst (t pat : Str) : Str :=
  match t with
  | [] => []
  | c :: rest => if isPre pat t then t.drop pat.length else c :: replaceFirst rest pat

/-- Fuel-indexed worker for `splitOnStr`; the fuel bounds the text length so
the recursion is structural and kernel-reducible. -/
def splitGo (sep : Str) : Nat → Str → List Str
  | _, [] => [[]]
  | 0, t => [t]
  | Nat.succ n, t@(c :: rest) =>
    if isPre sep t then
      [] :: splitGo sep n (t.drop sep.length)
    else
      match splitGo sep n rest with
      | [] => [[c]]
      | tok :: toks => (c :: tok) :: toks

/-- JavaScript `t.split(sep)` for a non-empty string separator. -/
def splitOnStr (sep t : Str) : List Str :=
  if sep.isEmpty then [t] else splitGo sep t.length t

/-- Worker for `jsSet`: keep the first occurrence of each element, skipping
elements already seen. -/
def jsSetAux (seen : List Str) : List Str → List Str
  | [] => []
  | x :: xs => if x ∈ seen then jsSetAux seen xs else x :: jsSetAux (x :: seen) xs

/-- JavaScript `new Set(l)` read back in iteration order: first-seen-order
deduplication by exact string equality. -/
def jsSet (l : List Str) : List Str := jsSetAux [] l

/-- JavaScript global quote replacement: normalize both quote styles (double
quote and apostrophe) to the apostrophe. -/
def normQuotes (s : Str) : Str :=
  s.map (fun c => if c = Char.ofNat 34 || c = Char.ofNat 39 then Char.ofNat 39 else c)

deriving instance DecidableEq for Except

/-! ## Directive parser

The import-directive marker regex `IMPORT_STATEMENT_REGEX` lives in the
constants module of the repository, which is not among the source files here.

Modelled from the spec: a directive is a marker `@zod.<typeTag>` optionally
carrying a payload `([ ... ])` whose content is a double-quoted,
comma-separated list of import statements; the first marker in the
documentation is matched, its `typeTag` is the word directly after `@zod.`,
and the matched substring is exactly the marker (with its payload when the
payload is well formed). -/

/-- Result of matching the import-directive marker: the exact matched
substring, the type tag of the directive, and the raw payload when present. -/
structure DirectiveMatch where
  matched : Str
  typeTag : Str
  payload : Option Str
  deriving DecidableEq, Repr

/-- Try to match the directive marker at the start of `t`. -/
def tryMarkerAt (t : Str) : Option DirectiveMatch :=
  if isPre "@zod.".toList t then
    let after := t.drop 5
    let ty := after.takeWhile wordChar
    if ty.isEmpty then none
    else
      let rest := after.drop ty.length
      if isPre "([".toList rest then
        let run := (rest.drop 2).takeWhile classChar
        if !run.isEmpty && isPre "])".toList ((rest.drop 2).drop run.length) then
          some { matched := "@zod.".toList ++ ty ++ "([".toList ++ run ++ "])".toList
               , typeTag := ty
               , payload := some run }
        else some { matched := "@zod.".toList ++ ty, typeTag := ty, payload := none }
      else some { matched := "@zod.".toList ++ ty, typeTag := ty, payload := none }
  else none

/-- First match of the directive marker anywhere in the documentation,
scanning left to right. -/
def matchImport : Str → Option DirectiveMatch
  | [] => none
  | c :: rest =>
    match tryMarkerAt (c :: rest) with
    | some m => some m
    | none => matchImport rest

/-- Largest index of a double quote in `run`, used for the greedy backtracking
of the inner statement pattern. -/
def lastQuoteIdx (run : Str) : Option Nat :=
  match run.reverse.findIdx? (fun c => c = Char.ofNat 34) with
  | none => none
  | some k => some (run.length - 1 - k)

/-- Try to match the inner statement pattern (a double quote, one or more
class characters, a closing double quote) at the start of `t`; the source
pattern is the regex on line 125 of the model class. -/
def tryInnerAt (t : Str) : Option Str :=
  match t with
  | [] => none
  | c :: rest =>
    if c = Char.ofNat 34 then
      let run := rest.takeWhile classChar
      match lastQuoteIdx run with
      | none => none
      | some j => if 1 ≤ j then some (run.take j) else none
    else none

/-- First match of the inner statement pattern anywhere in one payload
element, scanning left to right. -/
def innerStatement : Str → Option Str
  | [] => none
  | c :: rest =>
    match tryInnerAt (c :: rest) with
    | some s => some s
    | none => innerStatement rest

/-- Successful result of `extractZodDirectives`: the extracted statements and
the documentation with the matched directive substring removed. -/
structure ZodDirectives where
  statements : List Str
  clearedDocumentation : Str
  deriving DecidableEq, Repr

/-- Error location string of `_setErrorLocation`. -/
def errLoc (name : Str) : Str :=
  "[Error Location]: Model: ".toList ++ ap ++ name ++ ap ++ ".".toList

/-- Error message thrown by `_extractZodDirectives` for a non-`import` tag. -/
def errMsg (ty loc : Str) : Str :=
  "[@zod generator error]: ".toList ++ ap ++ ty ++ ap ++
    " is not a valid validator key. ".toList ++ loc

/-- Embedding of `_extractZodDirectives`: absent or empty documentation and
absent marker yield no directive; a marker with a tag other than `import`
throws; a marker without payload yields no directive; otherwise the payload is
split on comma-space, each element is matched against the inner statement
pattern with quotes normalized (malformed or empty elements silently dropped),
and the matched directive substring is removed from the documentation. -/
def extractZodDirectives (doc : Option Str) (loc : Str) : Except Str (Option ZodDirectives) :=
  match doc with
  | none => .ok none
  | some d =>
    if d.isEmpty then .ok none
    else
      match matchImport d with
      | none => .ok none
      | some m =>
        if m.typeTag ≠ "import".toList then .error (errMsg m.typeTag loc)
        else
          match m.payload with
          | none => .ok none
          | some pl =>
            .ok (some
              { statements :=
                  ((splitOnStr ", ".toList pl).filterMap
                    (fun el => (innerStatement el).map normQuotes)).filter
                    (fun s => !s.isEmpty)
              , clearedDocumentation := replaceFirst d m.matched })

/-! ## Fields and models -/

/-- Raw field descriptor as supplied by the schema source: the kind tag, the
declared type name and the flags are pass-through inputs.  The omit-eligibility policy of a field is an external predicate supplied by the field itself,
so it is carried as a boolean input. -/
structure RawField where
  name : Str
  kind : Str
  typeName : Str
  isRequired : Bool
  isList : Bool
  omitPolicy : Bool
  deriving DecidableEq, Repr

/-- Classified field. Modelled from the spec: the `ExtendedDMMFField` class is
not among the source files; per the FieldClassifier contract the kind is
passed through, `isJsonType` and `isDecimalType` compare the declared type
name against the sentinels `Json` and `Decimal`, and omit-eligibility comes
from the own policy of the field. -/
structure ExtendedDMMFField where
  name : Str
  kind : Str
  typeName : Str
  isRequired : Bool
  isList : Bool
  isJsonType : Bool
  isDecimalType : Bool
  omitField : Bool
  deriving DecidableEq, Repr

/-- Modelled from the spec: construction of one classified field
(FieldClassifier, `ExtendedDMMFField` class not among the source files). -/
def mkExtendedDMMFField (raw : RawField) : ExtendedDMMFField :=
  { name := raw.name
  , kind := raw.kind
  , typeName := raw.typeName
  , isRequired := raw.isRequired
  , isList := raw.isList
  , isJsonType := raw.typeName = "Json".toList
  , isDecimalType := raw.typeName = "Decimal".toList
  , omitField := raw.omitPolicy }

/-- Raw model descriptor as supplied by the schema source. -/
structure RawModel where
  name : Str
  dbName : Option Str
  fields : List RawField
  documentation : Option Str
  deriving DecidableEq, Repr

/-- The slice of the generator configuration the embedded classes read. -/
structure GeneratorConfig where
  inputTypePath : Str
  prismaClientPath : Str
  deriving DecidableEq, Repr

/-- Constructed model: the enriched graph node built by `ExtendedDMMFModel`. -/
structure ExtendedDMMFModel where
  name : Str
  dbName : Option Str
  fields : List ExtendedDMMFField
  scalarFields : List ExtendedDMMFField
  relationFields : List ExtendedDMMFField
  enumFields : List ExtendedDMMFField
  hasRelationFields : Bool
  hasOmitFields : Bool
  errorLocation : Str
  imports : List Str
  clearedDocumentation : Option Str
  deriving DecidableEq, Repr

/-- Import statement pushed for an optional JSON field, exactly as in the
source (the source string itself carries the unbalanced double quote). -/
def nullableJsonImport : Str :=
  "import \x7b NullableJsonValue \x7d from ".toList ++ qt ++ "../helpers".toList

/-- Import statement pushed for a required JSON field. -/
def inputJsonImport : Str :=
  "import \x7b InputJsonValue \x7d from ".toList ++ qt ++ "../helpers".toList

/-- Import of the generated database client module, pushed for a decimal
field. -/
def prismaClientImport (cfg : GeneratorConfig) : Str :=
  "import * as PrismaClient from ".toList ++ ap ++ cfg.prismaClientPath ++ ap

/-- Import of the enum schema of one enum field. -/
def enumSchemaImport (ty : Str) : Str :=
  "import \x7b ".toList ++ ty ++ "Schema \x7d from ".toList ++ ap ++
    "../enums/".toList ++ ty ++ "Schema".toList ++ ap

/-- Embedding of `_getAutomaticImports`: the statements pushed, in source
order, from the fields and enum fields of the model. -/
def getAutomaticImports (cfg : GeneratorConfig) (fields enumFields : List ExtendedDMMFField) :
    List Str :=
  (if fields.any (fun f => f.isJsonType && !f.isRequired) then [nullableJsonImport] else []) ++
  (if fields.any (fun f => f.isJsonType && f.isRequired) then [inputJsonImport] else []) ++
  (if fields.any (fun f => f.isDecimalType) then [prismaClientImport cfg] else []) ++
  enumFields.map (fun f => enumSchemaImport f.typeName)

/-- Embedding of the `ExtendedDMMFModel` constructor: classify the fields in
declaration order, partition them by kind, derive the aggregate flags, run
directive extraction (whose tag error aborts the construction), and build the
final import set as the insertion-order deduplication of the directive
statements followed by the automatic statements. -/
def mkExtendedDMMFModel (cfg : GeneratorConfig) (m : RawModel) :
    Except Str ExtendedDMMFModel :=
  let fields := m.fields.map mkExtendedDMMFField
  let scalarFields := fields.filter (fun f => f.kind = "scalar".toList)
  let relationFields := fields.filter (fun f => f.kind = "object".toList)
  let enumFields := fields.filter (fun f => f.kind = "enum".toList)
  let loc := errLoc m.name
  (extractZodDirectives m.documentation loc).map (fun zd =>
    { name := m.name
    , dbName := m.dbName
    , fields := fields
    , scalarFields := scalarFields
    , relationFields := relationFields
    , enumFields := enumFields
    , hasRelationFields := decide (0 < relationFields.length)
    , hasOmitFields := fields.any (fun f => f.omitField)
    , errorLocation := loc
    , imports :=
        jsSet (((zd.map (fun z => z.statements)).getD []) ++
          getAutomaticImports cfg fields enumFields)
    , clearedDocumentation := zd.map (fun z => z.clearedDocumentation) })

/-! ## Schema fields (actions) -/

/-- One accepted input type of an argument. -/
structure SchemaArgInputType where
  typeName : Str
  isList : Bool
  deriving DecidableEq, Repr

/-- Argument of an action. Modelled from the spec: the `ExtendedDMMFSchemaArg`
class is not among the source files; the properties the action class reads
from it are the name, the required flag and the accepted input types. -/
structure ExtendedDMMFSchemaArg where
  name : Str
  isRequired : Bool
  inputTypes : List SchemaArgInputType
  deriving DecidableEq, Repr

/-- Modelled from the spec: an argument accepts one or many input types;
`hasMultipleTypes` holds when it accepts more than one. -/
def hasMultipleTypes (a : ExtendedDMMFSchemaArg) : Bool :=
  decide (1 < a.inputTypes.length)

/-- Modelled from the spec: the per-argument should-rewrite predicate is a
write/data pattern test on the argument name. -/
def rewriteArgWithNewType (a : ExtendedDMMFSchemaArg) : Bool :=
  jsIncludes a.name "create".toList || jsIncludes a.name "update".toList ||
  jsIncludes a.name "upsert".toList || jsIncludes a.name "delete".toList ||
  jsIncludes a.name "data".toList

/-- Raw action descriptor as supplied by the schema source. -/
structure RawSchemaField where
  name : Str
  args : List ExtendedDMMFSchemaArg
  deriving DecidableEq, Repr

/-- Constructed action: the enriched graph node built by
`ExtendedDMMFSchemaField`. -/
structure ExtendedDMMFSchemaField where
  name : Str
  prismaAction : Option Str
  modelType : Str
  argName : Option Str
  linkedModel : Option ExtendedDMMFModel
  args : List ExtendedDMMFSchemaArg
  hasOmitFields : Bool
  argTypeImports : List Str
  deriving DecidableEq, Repr

/-- Modelled from the spec: `PRISMA_ACTION_ARRAY`, the fixed closed verb set
(constants module not among the source files), ordered by specificity. -/
def PRISMA_ACTION_ARRAY : List Str :=
  ["findUnique".toList, "findMany".toList, "findFirst".toList,
   "createOne".toList, "createMany".toList, "updateOne".toList,
   "updateMany".toList, "upsertOne".toList, "deleteOne".toList,
   "deleteMany".toList, "aggregate".toList, "groupBy".toList]

/-- Modelled from the spec: `PRISMA_ACTION_ARG_MAP`, the conventional
argument-type label of each verb in PascalCase (constants module not among the source
files); per the spec a verb may have no registered label. -/
def PRISMA_ACTION_ARG_MAP (v : Str) : Option Str :=
  if v = "findUnique".toList then some "FindUnique".toList
  else if v = "findMany".toList then some "FindMany".toList
  else if v = "findFirst".toList then some "FindFirst".toList
  else if v = "createOne".toList then some "Create".toList
  else if v = "createMany".toList then some "CreateMany".toList
  else if v = "updateOne".toList then some "Update".toList
  else if v = "updateMany".toList then some "UpdateMany".toList
  else if v = "upsertOne".toList then some "Upsert".toList
  else if v = "deleteOne".toList then some "Delete".toList
  else if v = "deleteMany".toList then some "DeleteMany".toList
  else if v = "aggregate".toList then some "Aggregate".toList
  else if v = "groupBy".toList then some "GroupBy".toList
  else none

/-- Embedding of `_setMatchedPrismaAction`: the first verb of the fixed array
that occurs as a substring of the action name; the source hides the absent
case behind a type assertion, so the result is an `Option`. -/
def setMatchedPrismaAction (arr : List Str) (name : Str) : Option Str :=
  arr.find? (fun v => jsIncludes name v)

/-- Embedding of `_setModelType`: remove the matched verb substring (an
absent verb coerces to the text `undefined` as in JavaScript), then remove
the literal suffix `OrThrow`. -/
def setModelType (name : Str) (pa : Option Str) : Str :=
  replaceFirst (replaceFirst name (pa.getD "undefined".toList)) "OrThrow".toList

/-- Embedding of `_setArgName`: look up the argument-type label of the verb; when
the action name contains `OrThrow` the label is interpolated into a template
string (an absent label coerces to the text `undefined` as in JavaScript);
otherwise an absent label yields an absent argName. -/
def setArgName (amap : Str → Option Str) (pa : Option Str) (name modelType : Str) :
    Option Str :=
  let lbl := pa.bind amap
  if jsIncludes name "OrThrow".toList then
    some (modelType ++ (lbl.getD "undefined".toList) ++ "OrThrowArgs".toList)
  else
    match lbl with
    | none => none
    | some l => some (modelType ++ l ++ "Args".toList)

/-- Embedding of `_setLinkedModel`: first model of the root graph whose name
is a substring of the modelType of the action. -/
def setLinkedModel (models : List ExtendedDMMFModel) (modelType : Str) :
    Option ExtendedDMMFModel :=
  models.find? (fun m => jsIncludes modelType m.name)

/-- Embedding of `_setHasOmitFields`: a write-verb pattern test on the action
name, and then the omit flag of the linked model. -/
def setHasOmitFields (name : Str) (linked : Option ExtendedDMMFModel) : Bool :=
  if jsIncludes name "create".toList || jsIncludes name "upsert".toList ||
      jsIncludes name "update".toList || jsIncludes name "delete".toList then
    (linked.map (fun m => m.hasOmitFields)).getD false
  else false

/-- Embedding of `includeInSelectAndIncludeArgs`: the action name contains
none of `createMany`, `updateMany`, `deleteMany`. -/
def includeInSelectAndIncludeArgs (name : Str) : Bool :=
  !(jsIncludes name "createMany".toList || jsIncludes name "updateMany".toList ||
    jsIncludes name "deleteMany".toList)

/-- The include-schema import pushed for an action shown in select/include
args whose linked model has relation fields. -/
def includeSchemaImport (cfg : GeneratorConfig) (modelType : Str) : Str :=
  "import \x7b ".toList ++ modelType ++ "IncludeSchema \x7d from ".toList ++ ap ++
    "../".toList ++ cfg.inputTypePath ++ "/".toList ++ modelType ++
    "IncludeSchema".toList ++ ap

/-- The input-type schema import pushed for one accepted input type of an
argument. -/
def argSchemaImport (cfg : GeneratorConfig) (ty : Str) : Str :=
  "import \x7b ".toList ++ ty ++ "Schema \x7d from ".toList ++ ap ++
    "../".toList ++ cfg.inputTypePath ++ "/".toList ++ ty ++ "Schema".toList ++ ap

/-- Error value standing for the JavaScript `TypeError` raised when
`arg.inputTypes[0]` is read on an argument with no accepted input types. -/
def firstInputTypeError : Str :=
  "TypeError: cannot read inputTypes[0] of an argument without input types".toList

/-- Imports contributed by one argument in `_setArgTypeImports`: all accepted
input types when the argument has multiple types, otherwise the unconditional
access to the first accepted input type. -/
def argInputTypeImports (cfg : GeneratorConfig) (a : ExtendedDMMFSchemaArg) :
    Except Str (List Str) :=
  if hasMultipleTypes a then
    .ok (a.inputTypes.map (fun it => argSchemaImport cfg it.typeName))
  else
    match a.inputTypes with
    | [] => .error firstInputTypeError
    | it :: _ => .ok [argSchemaImport cfg it.typeName]

/-- Effectful map over a list in the `Except` monad, in order. -/
def mapExcept (f : α → Except Str β) : List α → Except Str (List β)
  | [] => .ok []
  | a :: l => do
    let b ← f a
    let bs ← mapExcept f l
    .ok (b :: bs)

/-- Embedding of `_setArgTypeImports`: the include-schema import when the
action appears in select/include args and its linked model has relation
fields, then the per-argument input-type imports, filtered of the built-in
`IntSchema`/`BooleanSchema` statements and deduplicated. -/
def setArgTypeImports (cfg : GeneratorConfig) (name modelType : Str)
    (linked : Option ExtendedDMMFModel) (args : List ExtendedDMMFSchemaArg) :
    Except Str (List Str) := do
  let base :=
    if includeInSelectAndIncludeArgs name &&
        (linked.map (fun m => m.hasRelationFields)).getD false then
      [includeSchemaImport cfg modelType]
    else []
  let perArg ← mapExcept (argInputTypeImports cfg) args
  .ok (jsSet ((base ++ perArg.flatten).filter
    (fun imp => !(jsIncludes imp "IntSchema".toList) &&
                !(jsIncludes imp "BooleanSchema".toList))))

/-- Embedding of the `ExtendedDMMFSchemaField` constructor.  Verb matching,
modelType, argName, linked model and the omit flag are pure derivations; the
arg-type import computation carries the only error branch (the unconditional
first-input-type access). -/
def mkExtendedDMMFSchemaField (arr : List Str) (amap : Str → Option Str)
    (cfg : GeneratorConfig) (raw : RawSchemaField)
    (models : List ExtendedDMMFModel) : Except Str ExtendedDMMFSchemaField :=
  let pa := setMatchedPrismaAction arr raw.name
  let mt := setModelType raw.name pa
  let an := setArgName amap pa raw.name mt
  let lm := setLinkedModel models mt
  let ho := setHasOmitFields raw.name lm
  (setArgTypeImports cfg raw.name mt lm raw.args).map (fun imps =>
    { name := raw.name
    , prismaAction := pa
    , modelType := mt
    , argName := an
    , linkedModel := lm
    , args := raw.args
    , hasOmitFields := ho
    , argTypeImports := imps })

/-- The per-input-type text of the multiple-types branch of
`getTypeForCustomArgsType`, including the manual separator logic: every
element but the last is followed by the union separator. -/
def joinUnion (sep : Str) (f : SchemaArgInputType → Str) : List SchemaArgInputType → Str
  | [] => []
  | [a] => f a
  | a :: b :: rest => f a ++ sep ++ joinUnion sep f (b :: rest)

/-- The synthesized field-list entry contributed by one rewritable argument
in `getTypeForCustomArgsType`: name, optionality marker, then either the
union of all accepted types (multiple-types branch, no array markers) or the
single first type with its array marker. -/
def customArgsEntry (a : ExtendedDMMFSchemaArg) : Except Str Str :=
  let argNamePart := a.name ++ (if a.isRequired then [] else "?".toList) ++ ": ".toList
  if hasMultipleTypes a then
    .ok (argNamePart ++
      joinUnion " | ".toList
        (fun it => "z.infer<typeof ".toList ++ it.typeName ++ "Schema>".toList)
        a.inputTypes)
  else
    match a.inputTypes with
    | [] => .error firstInputTypeError
    | it :: _ =>
      .ok (argNamePart ++ "z.infer<typeof ".toList ++ it.typeName ++
        "Schema> ".toList ++ (if it.isList then "[]".toList else []))

/-- The entries pushed by `getTypeForCustomArgsType`, in order: one per
argument whose should-rewrite predicate holds. -/
def customArgsEntries : List ExtendedDMMFSchemaArg → Except Str (List Str)
  | [] => .ok []
  | a :: rest =>
    if rewriteArgWithNewType a then do
      let e ← customArgsEntry a
      let tl ← customArgsEntries rest
      .ok (e :: tl)
    else customArgsEntries rest

/-- Embedding of `getTypeForCustomArgsType`: the comma-joined entry list. -/
def getTypeForCustomArgsType (args : List ExtendedDMMFSchemaArg) : Except Str Str :=
  (customArgsEntries args).map (fun es => List.intercalate ", ".toList es)

/-- Embedding of `createCustomOmitFieldArgType`: the action has omit fields
and some argument name matches the write/data pattern. -/
def createCustomOmitFieldArgType (hasOmit : Bool) (args : List ExtendedDMMFSchemaArg) :
    Bool :=
  hasOmit && args.any rewriteArgWithNewType

/-- Boolean success test on the `Except` results of the embedded fallible
computations. -/
def isOkE (e : Except Str α) : Bool :=
  match e with
  | .ok _ => true
  | .error _ => false

/-! ## Concrete inputs used by witnesses and counterexamples -/

/-- Generator configuration with the default paths of the repository. -/
def cfgDefault : GeneratorConfig :=
  { inputTypePath := "inputTypeSchemas".toList
  , prismaClientPath := "@prisma/client".toList }

/-- Extract the model of a successful construction, with a dummy fallback for
the error case. -/
def forceOk (e : Except Str ExtendedDMMFModel) : ExtendedDMMFModel :=
  match e with
  | .ok m => m
  | .error _ =>
    { name := [], dbName := none, fields := [], scalarFields := []
    , relationFields := [], enumFields := [], hasRelationFields := false
    , hasOmitFields := false, errorLocation := [], imports := []
    , clearedDocumentation := none }

/-- Raw model named `User` with no fields and no documentation. -/
def rawUserModel : RawModel :=
  { name := "User".toList, dbName := none, fields := [], documentation := none }

/-- Raw model named `UserProfile` with no fields and no documentation. -/
def rawUserProfileModel : RawModel :=
  { name := "UserProfile".toList, dbName := none, fields := [], documentation := none }

/-- Constructed `User` model. -/
def userModel : ExtendedDMMFModel := forceOk (mkExtendedDMMFModel cfgDefault rawUserModel)

/-- Constructed `UserProfile` model. -/
def userProfileModel : ExtendedDMMFModel :=
  forceOk (mkExtendedDMMFModel cfgDefault rawUserProfileModel)

/-- Action named `foobar`, whose name contains no recognized verb. -/
def foobarField : RawSchemaField :=
  { name := "foobar".toList
  , args := [{ name := "where".toList, isRequired := true
             , inputTypes := [{ typeName := "X".toList, isList := false }] }] }

/-- Action named `findUniqueUserOrThrow` with no arguments. -/
def orThrowField : RawSchemaField :=
  { name := "findUniqueUserOrThrow".toList, args := [] }

/-- Argument-type label map registering no label for any verb. -/
def emptyArgMap : Str → Option Str := fun _ => none

/-- Action named `findManyUserProfile` with no arguments. -/
def findManyUserProfileField : RawSchemaField :=
  { name := "findManyUserProfile".toList, args := [] }

/-- Action named `findManyUser` with no arguments. -/
def findManyUserField : RawSchemaField :=
  { name := "findManyUser".toList, args := [] }

/-- A well-formed import directive as documentation text. -/
def oneDirective : Str :=
  "@zod.import([".toList ++ qt ++ "import x from ".toList ++ ap ++ "y".toList ++
    ap ++ qt ++ "])".toList

/-- The statement carried by `oneDirective`. -/
def oneDirectiveStatement : Str :=
  "import x from ".toList ++ ap ++ "y".toList ++ ap

/-- Documentation consisting of the same directive twice in a row. -/
def doubleDirectiveDoc : Str := oneDirective ++ oneDirective

/-- Raw field of enum kind with enum type `Role`. -/
def roleEnumField (nm : Str) : RawField :=
  { name := nm, kind := "enum".toList, typeName := "Role".toList
  , isRequired := true, isList := false, omitPolicy := false }

/-- Raw model with two enum fields of the same enum type and no
documentation. -/
def twoEnumRawModel : RawModel :=
  { name := "Foo".toList, dbName := none
  , fields := [roleEnumField "role".toList, roleEnumField "backupRole".toList]
  , documentation := none }

/-- Constructed model of `twoEnumRawModel`. -/
def twoEnumModel : ExtendedDMMFModel :=
  forceOk (mkExtendedDMMFModel cfgDefault twoEnumRawModel)

/-- Raw model named `Post` whose documentation carries a directive marker with
the tag `custom`. -/
def badTagRawModel : RawModel :=
  { name := "Post".toList, dbName := none, fields := []
  , documentation := some "some text @zod.custom".toList }

/-- Argument named `data` accepting two input types, the second of which is
list-valued. -/
def dataArgTwoTypes : ExtendedDMMFSchemaArg :=
  { name := "data".toList, isRequired := true
  , inputTypes := [{ typeName := "A".toList, isList := false }
                  , { typeName := "B".toList, isList := true }] }

/-- Extract the action of a successful construction, with a dummy fallback
for the error case. -/
def forceOkF (e : Except Str ExtendedDMMFSchemaField) : ExtendedDMMFSchemaField :=
  match e with
  | .ok f => f
  | .error _ =>
    { name := [], prismaAction := none, modelType := [], argName := none
    , linkedModel := none, args := [], hasOmitFields := false, argTypeImports := [] }

/-- Action named `findUniqueUser` with no arguments. -/
def findUniqueUserField : RawSchemaField :=
  { name := "findUniqueUser".toList, args := [] }

/-- Action of `findUniqueUser` constructed against a label map with no
registered labels. -/
def findUniqueUserNoLabel : ExtendedDMMFSchemaField :=
  forceOkF (mkExtendedDMMFSchemaField ["findUnique".toList] emptyArgMap cfgDefault
    findUniqueUserField [])

/-- Documentation with ordinary text followed by a single directive. -/
def singleDirectiveDoc : Str := "some text ".toList ++ oneDirective

/-- Raw model with one field of each kind. -/
def mixedRawModel : RawModel :=
  { name := "Mixed".toList, dbName := none
  , fields :=
      [⟨"id".toList, "scalar".toList, "Int".toList, true, false, false⟩,
       ⟨"posts".toList, "object".toList, "Post".toList, false, true, false⟩,
       ⟨"role".toList, "enum".toList, "Role".toList, true, false, false⟩]
  , documentation := none }

/-- Constructed model of `mixedRawModel`. -/
def mixedModel : ExtendedDMMFModel := forceOk (mkExtendedDMMFModel cfgDefault mixedRawModel)

/-- Spec-side description of the automatic import statements, following the
construction order of the spec: nullable-JSON helper when some JSON field is not
required, input-JSON helper when some JSON field is required, database-client
statement when some field is decimal, then one enum-schema import per enum
field. -/
def specAutomaticImports (cfg : GeneratorConfig) (fields : List ExtendedDMMFField) :
    List Str :=
  (if ∃ f ∈ fields, f.isJsonType = true ∧ f.isRequired = false
   then [nullableJsonImport] else []) ++
  (if ∃ f ∈ fields, f.isJsonType = true ∧ f.isRequired = true
   then [inputJsonImport] else []) ++
  (if ∃ f ∈ fields, f.isDecimalType = true then [prismaClientImport cfg] else []) ++
  (fields.filter (fun f => f.kind = "enum".toList)).map
    (fun f => enumSchemaImport f.typeName)

/-- Spec-side description of one synthesized custom-argument-type entry, as
amended: `name: Type` (with the optionality marker) where the type is the
pipe-joined union of all accepted input types when the argument accepts
multiple types — with no array markers — and otherwise the single first
accepted input type followed by an array marker when it is list-valued. -/
def specCustomEntry (a : ExtendedDMMFSchemaArg) : Str :=
  a.name ++ (if a.isRequired then [] else "?".toList) ++ ": ".toList ++
  (if hasMultipleTypes a then
    List.intercalate " | ".toList
      (a.inputTypes.map (fun it => "z.infer<typeof ".toList ++ it.typeName ++
        "Schema>".toList))
  else
    match a.inputTypes.head? with
    | some it =>
      "z.infer<typeof ".toList ++ it.typeName ++ "Schema> ".toList ++
        (if it.isList then "[]".toList else [])
    | none => [])

/-- Expected extraction result for `singleDirectiveDoc`. -/
def singleDirectiveExtract : ZodDirectives :=
  { statements := [oneDirectiveStatement]
  , clearedDocumentation := "some text ".toList }

/-! ## Helper lemmas -/

theorem except_map_okE {α β : Type} {f : α → β} {e : Except Str α} {b : β}
    (h : e.map f = .ok b) : ∃ a, e = .ok a ∧ b = f a := by
  cases e with
  | ok a => exact ⟨a, rfl, by simpa [Except.map] using h.symm⟩
  | error ε => simp [Except.map] at h

theorem jsSetAux_mem (l : List Str) : ∀ (seen : List Str) (x : Str),
    x ∈ jsSetAux seen l ↔ x ∈ l ∧ x ∉ seen := by
  induction l with
  | nil => intro seen x; simp [jsSetAux]
  | cons a t ih =>
    intro seen x
    by_cases ha : a ∈ seen
    · simp only [jsSetAux, if_pos ha, ih, List.mem_cons]
      constructor
      · rintro ⟨hx, hns⟩; exact ⟨Or.inr hx, hns⟩
      · rintro ⟨rfl | hx, hns⟩
        · exact absurd ha hns
        · exact ⟨hx, hns⟩
    · simp only [jsSetAux, if_neg ha, List.mem_cons, ih]
      constructor
      · rintro (rfl | ⟨hx, hns⟩)
        · exact ⟨Or.inl rfl, ha⟩
        · exact ⟨Or.inr hx, fun hh => hns (Or.inr hh)⟩
      · rintro ⟨rfl | hx, hns⟩
        · exact Or.inl rfl
        · by_cases hxa : x = a
          · exact Or.inl hxa
          · exact Or.inr ⟨hx, fun hh => hh.elim hxa hns⟩

theorem jsSetAux_sublist (l : List Str) : ∀ seen, List.Sublist (jsSetAux seen l) l := by
  induction l with
  | nil => intro _; simp [jsSetAux]
  | cons a t ih =>
    intro seen
    by_cases ha : a ∈ seen
    · simpa [jsSetAux, ha] using (ih seen).cons a
    · simpa [jsSetAux, ha] using (ih (a :: seen)).cons₂ a

theorem jsSetAux_nodup (l : List Str) : ∀ seen, (jsSetAux seen l).Nodup := by
  induction l with
  | nil => intro _; simp [jsSetAux]
  | cons a t ih =>
    intro seen
    by_cases ha : a ∈ seen
    · simpa [jsSetAux, ha] using ih seen
    · simp only [jsSetAux, if_neg ha]
      refine List.nodup_cons.mpr ⟨?_, ih _⟩
      intro hmem
      exact ((jsSetAux_mem t (a :: seen) a).1 hmem).2 (List.mem_cons_self a seen)

theorem jsSet_mem (l : List Str) (x : Str) : x ∈ jsSet l ↔ x ∈ l := by
  simpa [jsSet] using jsSetAux_mem l [] x

theorem jsSet_sublist (l : List Str) : List.Sublist (jsSet l) l := jsSetAux_sublist l []

theorem jsSet_nodup (l : List Str) : (jsSet l).Nodup := jsSetAux_nodup l []

theorem filter_three_partition {α : Type} (p q r : α → Bool) :
    ∀ (l : List α), (∀ x ∈ l, p x = true ∨ q x = true ∨ r x = true) →
    (∀ x, ¬(p x = true ∧ q x = true)) → (∀ x, ¬(p x = true ∧ r x = true)) →
    (∀ x, ¬(q x = true ∧ r x = true)) →
    List.Perm (l.filter p ++ l.filter q ++ l.filter r) l := by
  intro l
  induction l with
  | nil => intro _ _ _ _; simp
  | cons a t ih =>
    intro hcov hpq hpr hqr
    have ht := ih (fun x hx => hcov x (List.mem_cons_of_mem a hx)) hpq hpr hqr
    rcases hcov a (List.mem_cons_self a t) with hp | hq | hr
    · have hq' : q a = false := by
        cases hqa : q a
        · rfl
        · exact absurd ⟨hp, hqa⟩ (hpq a)
      have hr' : r a = false := by
        cases hra : r a
        · rfl
        · exact absurd ⟨hp, hra⟩ (hpr a)
      simpa [List.filter_cons, hp, hq', hr'] using ht.cons a
    · have hp' : p a = false := by
        cases hpa : p a
        · rfl
        · exact absurd ⟨hpa, hq⟩ (hpq a)
      have hr' : r a = false := by
        cases hra : r a
        · rfl
        · exact absurd ⟨hq, hra⟩ (hqr a)
      rw [List.append_assoc] at ht
      have hmid :=
        (@List.perm_middle _ a (t.filter p) (t.filter q ++ t.filter r)).trans (ht.cons a)
      simpa [List.filter_cons, hp', hq, hr', List.append_assoc] using hmid
    · have hp' : p a = false := by
        cases hpa : p a
        · rfl
        · exact absurd ⟨hpa, hr⟩ (hpr a)
      have hq' : q a = false := by
        cases hqa : q a
        · rfl
        · exact absurd ⟨hqa, hr⟩ (hqr a)
      have hmid :=
        (@List.perm_middle _ a (t.filter p ++ t.filter q) (t.filter r)).trans (ht.cons a)
      simpa [List.filter_cons, hp', hq', hr, List.append_assoc] using hmid

theorem isPre_refl_append : ∀ (p suf : Str), isPre p (p ++ suf) = true := by
  intro p
  induction p with
  | nil => intro _; rfl
  | cons c cs ih => intro suf; simp [isPre, ih]

theorem jsIncludes_here (p b : Str) : jsIncludes (p ++ b) p = true := by
  cases p with
  | nil =>
    cases b with
    | nil => rfl
    | cons c r => simp [jsIncludes, isPre]
  | cons c cs =>
    have : jsIncludes ((c :: cs) ++ b) (c :: cs) =
        (isPre (c :: cs) ((c :: cs) ++ b) || jsIncludes (cs ++ b) (c :: cs)) := rfl
    rw [this, isPre_refl_append, Bool.true_or]

theorem jsIncludes_cons_of (c : Char) (t p : Str) (h : jsIncludes t p = true) :
    jsIncludes (c :: t) p = true := by simp [jsIncludes, h]

theorem jsIncludes_parts (a p b : Str) : jsIncludes (a ++ (p ++ b)) p = true := by
  induction a with
  | nil => simpa using jsIncludes_here p b
  | cons c cs ih => simpa using jsIncludes_cons_of c _ _ ih

theorem tryMarkerAt_eq_none {t : Str} (h : isPre "@zod.".toList t = false) :
    tryMarkerAt t = none := by
  unfold tryMarkerAt
  rw [h]
  simp

theorem matchImport_eq_none : ∀ {s : Str}, jsIncludes s "@zod.".toList = false →
    matchImport s = none := by
  intro s
  induction s with
  | nil => intro _; rfl
  | cons c rest ih =>
    intro h
    rw [jsIncludes, Bool.or_eq_false_iff] at h
    rw [matchImport, tryMarkerAt_eq_none h.1, ih h.2]

theorem mapExcept_ok_of {α β : Type} (f : α → Except Str β) :
    ∀ (l : List α), (∀ a ∈ l, ∃ b, f a = .ok b) → ∃ v, mapExcept f l = .ok v := by
  intro l
  induction l with
  | nil => intro _; exact ⟨[], rfl⟩
  | cons a t ih =>
    intro h
    obtain ⟨b, hb⟩ := h a (List.mem_cons_self a t)
    obtain ⟨v, hv⟩ := ih (fun x hx => h x (List.mem_cons_of_mem a hx))
    refine ⟨b :: v, ?_⟩
    simp only [mapExcept]
    rw [hb, hv]
    rfl

theorem argInputTypeImports_ok (cfg : GeneratorConfig) (a : ExtendedDMMFSchemaArg)
    (h : a.inputTypes ≠ []) : ∃ v, argInputTypeImports cfg a = .ok v := by
  by_cases hm : hasMultipleTypes a
  · refine ⟨a.inputTypes.map (fun it => argSchemaImport cfg it.typeName), ?_⟩
    simp [argInputTypeImports, hm]
  · cases hit : a.inputTypes with
    | nil => exact absurd hit h
    | cons it rest =>
      refine ⟨[argSchemaImport cfg it.typeName], ?_⟩
      simp [argInputTypeImports, hm, hit]

theorem setArgTypeImports_ok (cfg : GeneratorConfig) (name mt : Str)
    (linked : Option ExtendedDMMFModel) (args : List ExtendedDMMFSchemaArg)
    (h : ∀ a ∈ args, a.inputTypes ≠ []) :
    ∃ v, setArgTypeImports cfg name mt linked args = .ok v := by
  obtain ⟨v, hv⟩ := mapExcept_ok_of (argInputTypeImports cfg) args
    (fun a ha => argInputTypeImports_ok cfg a (h a ha))
  exact ⟨_, by simp only [setArgTypeImports]; rw [hv]; rfl⟩

theorem joinUnion_eq_intercalate (sep : Str) (f : SchemaArgInputType → Str) :
    ∀ l, joinUnion sep f l = List.intercalate sep (l.map f) := by
  intro l
  induction l with
  | nil => simp [joinUnion, List.intercalate]
  | cons a t ih =>
    cases t with
    | nil => simp [joinUnion, List.intercalate]
    | cons b t2 =>
      simp only [joinUnion, ih, List.map_cons, List.intercalate,
        List.intersperse_cons₂, List.flatten_cons, List.append_assoc]

theorem customArgsEntry_eq_spec (a : ExtendedDMMFSchemaArg) (h : a.inputTypes ≠ []) :
    customArgsEntry a = .ok (specCustomEntry a) := by
  unfold customArgsEntry specCustomEntry
  by_cases hm : hasMultipleTypes a
  · simp [hm, joinUnion_eq_intercalate]
  · cases hit : a.inputTypes with
    | nil => exact absurd hit h
    | cons it rest => simp [hm, hit]

theorem customArgsEntries_eq_spec :
    ∀ (args : List ExtendedDMMFSchemaArg),
    (∀ a ∈ args, rewriteArgWithNewType a = true → a.inputTypes ≠ []) →
    customArgsEntries args = .ok ((args.filter rewriteArgWithNewType).map specCustomEntry) := by
  intro args
  induction args with
  | nil => intro _; rfl
  | cons a t ih =>
    intro h
    have ht := ih (fun x hx => h x (List.mem_cons_of_mem a hx))
    by_cases hra : rewriteArgWithNewType a
    · have hne := h a (List.mem_cons_self a t) hra
      simp only [customArgsEntries, hra, if_true, List.filter_cons, List.map_cons]
      rw [customArgsEntry_eq_spec a hne, ht]
      rfl
    · simp [customArgsEntries, hra, ht, List.filter_cons]

theorem mkModel_ok {cfg : GeneratorConfig} {r : RawModel} {M : ExtendedDMMFModel}
    (h : mkExtendedDMMFModel cfg r = .ok M) :
    ∃ zd, extractZodDirectives r.documentation (errLoc r.name) = .ok zd ∧
      M.name = r.name ∧
      M.fields = r.fields.map mkExtendedDMMFField ∧
      M.scalarFields = M.fields.filter (fun f => f.kind = "scalar".toList) ∧
      M.relationFields = M.fields.filter (fun f => f.kind = "object".toList) ∧
      M.enumFields = M.fields.filter (fun f => f.kind = "enum".toList) ∧
      M.imports = jsSet (((zd.map (fun z => z.statements)).getD []) ++
        getAutomaticImports cfg M.fields M.enumFields) ∧
      M.clearedDocumentation = zd.map (fun z => z.clearedDocumentation) := by
  unfold mkExtendedDMMFModel at h
  obtain ⟨zd, hzd, hM⟩ := except_map_okE h
  exact ⟨zd, hzd, by subst hM; simp⟩

theorem mkSchemaField_ok {arr : List Str} {amap : Str → Option Str}
    {cfg : GeneratorConfig} {raw : RawSchemaField} {models : List ExtendedDMMFModel}
    {F : ExtendedDMMFSchemaField}
    (h : mkExtendedDMMFSchemaField arr amap cfg raw models = .ok F) :
    F.name = raw.name ∧
    F.prismaAction = setMatchedPrismaAction arr raw.name ∧
    F.modelType = setModelType raw.name (setMatchedPrismaAction arr raw.name) ∧
    F.argName = setArgName amap (setMatchedPrismaAction arr raw.name) raw.name
      (setModelType raw.name (setMatchedPrismaAction arr raw.name)) ∧
    F.linkedModel = setLinkedModel models
      (setModelType raw.name (setMatchedPrismaAction arr raw.name)) ∧
    F.args = raw.args ∧
    F.hasOmitFields = setHasOmitFields raw.name (setLinkedModel models
      (setModelType raw.name (setMatchedPrismaAction arr raw.name))) := by
  unfold mkExtendedDMMFSchemaField at h
  obtain ⟨imps, _, hF⟩ := except_map_okE h
  subst hF
  exact ⟨rfl, rfl, rfl, rfl, rfl, rfl, rfl⟩

/-! ## Claims -/

/-- C1: for every constructed model whose raw fields all carry one of the
kind tags `scalar`, `object`, `enum`, the derived lists `scalarFields`,
`relationFields` and `enumFields` form a partition of the field list of the model:
their concatenation is a permutation of the full ordered field list (no field
duplicated or omitted), each list preserves the relative declaration order of
the fields, and the three lists are pairwise disjoint. -/
theorem claim_C1_field_partition (cfg : GeneratorConfig) (r : RawModel)
    (M : ExtendedDMMFModel)
    (hk : ∀ f ∈ r.fields, f.kind = "scalar".toList ∨ f.kind = "object".toList ∨
      f.kind = "enum".toList)
    (hM : mkExtendedDMMFModel cfg r = .ok M) :
    List.Perm (M.scalarFields ++ M.relationFields ++ M.enumFields) M.fields ∧
    List.Sublist M.scalarFields M.fields ∧
    List.Sublist M.relationFields M.fields ∧
    List.Sublist M.enumFields M.fields ∧
    (∀ f, f ∈ M.scalarFields → f ∉ M.relationFields) ∧
    (∀ f, f ∈ M.scalarFields → f ∉ M.enumFields) ∧
    (∀ f, f ∈ M.relationFields → f ∉ M.enumFields) := by
  obtain ⟨zd, hzd, hname, hfields, hsc, hrel, hen, him, hdoc⟩ := mkModel_ok hM
  have hkM : ∀ g ∈ M.fields, g.kind = "scalar".toList ∨ g.kind = "object".toList ∨
      g.kind = "enum".toList := by
    intro g hg
    rw [hfields] at hg
    obtain ⟨raw, hraw, rfl⟩ := List.mem_map.1 hg
    exact hk raw hraw
  rw [hsc, hrel, hen]
  refine ⟨?_, List.filter_sublist _, List.filter_sublist _, List.filter_sublist _,
    ?_, ?_, ?_⟩
  · refine filter_three_partition _ _ _ M.fields ?_ ?_ ?_ ?_
    · intro x hx
      rcases hkM x hx with h | h | h <;> simp [h]
    · rintro x ⟨h1, h2⟩
      rw [decide_eq_true_eq] at h1 h2
      exact absurd (h1.symm.trans h2) (by decide)
    · rintro x ⟨h1, h2⟩
      rw [decide_eq_true_eq] at h1 h2
      exact absurd (h1.symm.trans h2) (by decide)
    · rintro x ⟨h1, h2⟩
      rw [decide_eq_true_eq] at h1 h2
      exact absurd (h1.symm.trans h2) (by decide)
  · intro f hf hg
    have h1 := (List.mem_filter.1 hf).2
    have h2 := (List.mem_filter.1 hg).2
    rw [decide_eq_true_eq] at h1 h2
    exact absurd (h1.symm.trans h2) (by decide)
  · intro f hf hg
    have h1 := (List.mem_filter.1 hf).2
    have h2 := (List.mem_filter.1 hg).2
    rw [decide_eq_true_eq] at h1 h2
    exact absurd (h1.symm.trans h2) (by decide)
  · intro f hf hg
    have h1 := (List.mem_filter.1 hf).2
    have h2 := (List.mem_filter.1 hg).2
    rw [decide_eq_true_eq] at h1 h2
    exact absurd (h1.symm.trans h2) (by decide)

/-- Witness for C1, at a concrete model with one field of each kind. -/
theorem claim_C1_field_partition_witness :
    ((∀ f ∈ mixedRawModel.fields, f.kind = "scalar".toList ∨ f.kind = "object".toList ∨
        f.kind = "enum".toList) ∧
      mkExtendedDMMFModel cfgDefault mixedRawModel = .ok mixedModel) ∧
    (List.Perm (mixedModel.scalarFields ++ mixedModel.relationFields ++
        mixedModel.enumFields) mixedModel.fields ∧
      List.Sublist mixedModel.scalarFields mixedModel.fields ∧
      List.Sublist mixedModel.relationFields mixedModel.fields ∧
      List.Sublist mixedModel.enumFields mixedModel.fields ∧
      (∀ f, f ∈ mixedModel.scalarFields → f ∉ mixedModel.relationFields) ∧
      (∀ f, f ∈ mixedModel.scalarFields → f ∉ mixedModel.enumFields) ∧
      (∀ f, f ∈ mixedModel.relationFields → f ∉ mixedModel.enumFields)) :=
  ⟨⟨by decide, by rfl⟩,
    claim_C1_field_partition cfgDefault mixedRawModel mixedModel (by decide) (by rfl)⟩

/-- C8: for the action named `findManyUser`, the matched verb is `findMany`,
the derived modelType is `User`, the derived argName is `UserFindManyArgs`,
and hasOmitFields is false because `findMany` is not a write verb. -/
theorem claim_C8_findManyUser :
    (mkExtendedDMMFSchemaField PRISMA_ACTION_ARRAY PRISMA_ACTION_ARG_MAP cfgDefault
        findManyUserField []).map
      (fun f => (f.prismaAction, f.modelType, f.argName, f.hasOmitFields)) =
    .ok (some "findMany".toList, "User".toList, some "UserFindManyArgs".toList, false) := by
  decide

/-- C2 counterexample: the action name `foobar` contains no recognized verb,
yet construction succeeds — the result is `ok` with no matched action — so a
missing verb is not treated as a fatal error. -/
theorem claim_C2_counterexample :
    PRISMA_ACTION_ARRAY.all (fun v => !(jsIncludes "foobar".toList v)) = true ∧
    (mkExtendedDMMFSchemaField PRISMA_ACTION_ARRAY PRISMA_ACTION_ARG_MAP cfgDefault
        foobarField []).map (fun f => f.prismaAction) = .ok none :=
  ⟨by decide, by decide⟩

/-- C2 amended: when no verb of the fixed set occurs in the action name (and
every argument carries at least one accepted input type, so the unrelated
first-input-type access cannot fail), construction does not abort: it
succeeds, recording no matched action and relying on the upstream guarantee
instead of checking it. -/
theorem claim_C2_no_verb_not_fatal (arr : List Str) (amap : Str → Option Str)
    (cfg : GeneratorConfig) (raw : RawSchemaField) (models : List ExtendedDMMFModel)
    (hverb : ∀ v ∈ arr, jsIncludes raw.name v = false)
    (hargs : ∀ a ∈ raw.args, a.inputTypes ≠ []) :
    (mkExtendedDMMFSchemaField arr amap cfg raw models).map (fun f => f.prismaAction) =
      .ok none := by
  have hpa : setMatchedPrismaAction arr raw.name = none := by
    rw [setMatchedPrismaAction, List.find?_eq_none]
    intro v hv
    simp [hverb v hv]
  obtain ⟨w, hw⟩ := setArgTypeImports_ok cfg raw.name
    (setModelType raw.name (setMatchedPrismaAction arr raw.name))
    (setLinkedModel models (setModelType raw.name (setMatchedPrismaAction arr raw.name)))
    raw.args hargs
  simp only [mkExtendedDMMFSchemaField]
  rw [hw]
  simp [Except.map, hpa]

/-- Witness for the amended C2, at the concrete verb-free action `foobar`. -/
theorem claim_C2_no_verb_not_fatal_witness :
    ((∀ v ∈ PRISMA_ACTION_ARRAY, jsIncludes foobarField.name v = false) ∧
      (∀ a ∈ foobarField.args, a.inputTypes ≠ [])) ∧
    (mkExtendedDMMFSchemaField PRISMA_ACTION_ARRAY PRISMA_ACTION_ARG_MAP cfgDefault
        foobarField []).map (fun f => f.prismaAction) = .ok none :=
  ⟨⟨by decide, by decide⟩,
    claim_C2_no_verb_not_fatal PRISMA_ACTION_ARRAY PRISMA_ACTION_ARG_MAP cfgDefault
      foobarField [] (by decide) (by decide)⟩

/-- C3 counterexample: the verb `findUnique` matches the action
`findUniqueUserOrThrow`, no label is registered for it, and yet the derived
argName is not absent: the JavaScript `undefined` coercion makes it the
string `UserundefinedOrThrowArgs`. -/
theorem claim_C3_counterexample :
    emptyArgMap "findUnique".toList = none ∧
    (mkExtendedDMMFSchemaField ["findUnique".toList] emptyArgMap cfgDefault
        orThrowField []).map (fun f => (f.prismaAction, f.argName)) =
      .ok (some "findUnique".toList, some "UserundefinedOrThrowArgs".toList) ∧
    (some "UserundefinedOrThrowArgs".toList ≠ (none : Option Str)) :=
  ⟨rfl, by decide, by decide⟩

/-- C3 amended: for every action whose matched verb has no registered
argument-type label, the derived argName is absent when the action name does
not contain `OrThrow`; when the name does contain `OrThrow` the argName is
instead present and equal to the modelType followed by the literal text
`undefined` and `OrThrowArgs`. -/
theorem claim_C3_argName_no_label (arr : List Str) (amap : Str → Option Str)
    (cfg : GeneratorConfig) (raw : RawSchemaField) (models : List ExtendedDMMFModel)
    (F : ExtendedDMMFSchemaField) (v : Str)
    (hF : mkExtendedDMMFSchemaField arr amap cfg raw models = .ok F)
    (hv : F.prismaAction = some v) (hl : amap v = none) :
    (jsIncludes raw.name "OrThrow".toList = false → F.argName = none) ∧
    (jsIncludes raw.name "OrThrow".toList = true →
      F.argName = some (F.modelType ++ "undefined".toList ++ "OrThrowArgs".toList)) := by
  obtain ⟨hname, hpa, hmt, han, hlm, hargs, hho⟩ := mkSchemaField_ok hF
  rw [hpa] at hv
  constructor
  · intro hot
    rw [han, hv, setArgName, hot]
    simp [hl]
  · intro hot
    rw [han, hv, hmt, hv, setArgName, hot]
    simp [hl]

/-- Witness for the amended C3, at the concrete action `findUniqueUser`. -/
theorem claim_C3_argName_no_label_witness :
    (mkExtendedDMMFSchemaField ["findUnique".toList] emptyArgMap cfgDefault
        findUniqueUserField [] = .ok findUniqueUserNoLabel ∧
      findUniqueUserNoLabel.prismaAction = some "findUnique".toList ∧
      emptyArgMap "findUnique".toList = none) ∧
    ((jsIncludes findUniqueUserField.name "OrThrow".toList = false →
        findUniqueUserNoLabel.argName = none) ∧
      (jsIncludes findUniqueUserField.name "OrThrow".toList = true →
        findUniqueUserNoLabel.argName = some (findUniqueUserNoLabel.modelType ++
          "undefined".toList ++ "OrThrowArgs".toList))) :=
  ⟨⟨by rfl, by decide, rfl⟩,
    claim_C3_argName_no_label ["findUnique".toList] emptyArgMap cfgDefault
      findUniqueUserField [] findUniqueUserNoLabel "findUnique".toList
      (by rfl) (by decide) rfl⟩

/-- C7 counterexample: with the models declared in the order `User`,
`UserProfile`, the action `findManyUserProfile` — whose modelType is
`UserProfile` — resolves to the model named `User`, so the substring lookup
does not distinguish the two models regardless of declaration order. -/
theorem claim_C7_counterexample :
    (mkExtendedDMMFSchemaField PRISMA_ACTION_ARRAY PRISMA_ACTION_ARG_MAP cfgDefault
        findManyUserProfileField [userModel, userProfileModel]).map
      (fun f => (f.modelType, f.linkedModel.map (fun m => m.name))) =
      .ok ("UserProfile".toList, some "User".toList) ∧
    ("User".toList ≠ "UserProfile".toList) :=
  ⟨by decide, by decide⟩

/-- C7 amended: the linked-model lookup selects the first model in
declaration order whose name is a substring of the modelType of the action; when
`UserProfile` is declared before `User`, actions over `UserProfile` and over
`User` both resolve to the correctly named model (while the counterexample
shows the resolution fails with the opposite order). -/
theorem claim_C7_first_substring_match (ms : List ExtendedDMMFModel)
    (up u : ExtendedDMMFModel)
    (hup : up.name = "UserProfile".toList) (hu : u.name = "User".toList) :
    (setLinkedModel (up :: u :: ms) "UserProfile".toList).map (fun m => m.name) =
      some "UserProfile".toList ∧
    (setLinkedModel (up :: u :: ms) "User".toList).map (fun m => m.name) =
      some "User".toList := by
  constructor
  · have h1 : jsIncludes "UserProfile".toList up.name = true := by
      rw [hup]
      decide
    have hfind : List.find? (fun m => jsIncludes "UserProfile".toList m.name)
        (up :: u :: ms) = some up := by
      simp only [List.find?]
      rw [h1]
    rw [setLinkedModel, hfind]
    simp [hup]
  · have h1 : jsIncludes "User".toList up.name = false := by
      rw [hup]
      decide
    have h2 : jsIncludes "User".toList u.name = true := by
      rw [hu]
      decide
    have hfind : List.find? (fun m => jsIncludes "User".toList m.name)
        (up :: u :: ms) = some u := by
      simp only [List.find?]
      rw [h1, h2]
    rw [setLinkedModel, hfind]
    simp [hu]

/-- Witness for the amended C7, at the concrete two-model graph with
`UserProfile` declared first. -/
theorem claim_C7_first_substring_match_witness :
    (userProfileModel.name = "UserProfile".toList ∧ userModel.name = "User".toList) ∧
    ((setLinkedModel [userProfileModel, userModel] "UserProfile".toList).map
        (fun m => m.name) = some "UserProfile".toList ∧
      (setLinkedModel [userProfileModel, userModel] "User".toList).map
        (fun m => m.name) = some "User".toList) :=
  ⟨⟨by decide, by decide⟩,
    claim_C7_first_substring_match [] userProfileModel userModel (by decide) (by decide)⟩

/-- C9 counterexample: the argument `data` accepts two input types and the
second one is list-valued, yet the synthesized entry carries no array marker
at all: in the multiple-types branch the list-ness of the accepted types is
ignored. -/
theorem claim_C9_counterexample :
    getTypeForCustomArgsType [dataArgTwoTypes] =
      .ok "data: z.infer<typeof ASchema> | z.infer<typeof BSchema>".toList ∧
    dataArgTwoTypes.inputTypes.any (fun it => it.isList) = true ∧
    jsIncludes "data: z.infer<typeof ASchema> | z.infer<typeof BSchema>".toList
      "[]".toList = false :=
  ⟨by decide, by decide, by decide⟩

/-- C9 amended: for every argument list in which each rewritable argument has
at least one accepted input type, the synthesized field list is the
comma-joined sequence of one entry per rewritable argument, where an argument
with multiple accepted types contributes the pipe-joined union of its types
with no array markers, and an argument with a single accepted type
contributes that type with an array marker exactly when it is list-valued
(see `specCustomEntry`). -/
theorem claim_C9_custom_args_type (args : List ExtendedDMMFSchemaArg)
    (h : ∀ a ∈ args, rewriteArgWithNewType a = true → a.inputTypes ≠ []) :
    getTypeForCustomArgsType args =
      .ok (List.intercalate ", ".toList
        ((args.filter rewriteArgWithNewType).map specCustomEntry)) := by
  rw [getTypeForCustomArgsType, customArgsEntries_eq_spec args h]
  rfl

/-- Witness for the amended C9, at the two-type argument. -/
theorem claim_C9_custom_args_type_witness :
    (∀ a ∈ [dataArgTwoTypes], rewriteArgWithNewType a = true → a.inputTypes ≠ []) ∧
    getTypeForCustomArgsType [dataArgTwoTypes] =
      .ok (List.intercalate ", ".toList
        (([dataArgTwoTypes].filter rewriteArgWithNewType).map specCustomEntry)) :=
  ⟨by decide, claim_C9_custom_args_type [dataArgTwoTypes] (by decide)⟩

/-- C10: under the precondition that every argument carries at least one
accepted input type, the computations that unconditionally index the first
accepted input type — the per-argument import emission inside construction
and the custom-argument-type field list — never reach their error branch:
construction and the field-list computation both succeed. -/
theorem claim_C10_first_input_type_total (arr : List Str) (amap : Str → Option Str)
    (cfg : GeneratorConfig) (raw : RawSchemaField) (models : List ExtendedDMMFModel)
    (h : ∀ a ∈ raw.args, a.inputTypes ≠ []) :
    isOkE (mkExtendedDMMFSchemaField arr amap cfg raw models) = true ∧
    isOkE (getTypeForCustomArgsType raw.args) = true := by
  constructor
  · obtain ⟨w, hw⟩ := setArgTypeImports_ok cfg raw.name
      (setModelType raw.name (setMatchedPrismaAction arr raw.name))
      (setLinkedModel models (setModelType raw.name (setMatchedPrismaAction arr raw.name)))
      raw.args h
    simp only [mkExtendedDMMFSchemaField]
    rw [hw]
    rfl
  · rw [getTypeForCustomArgsType, customArgsEntries_eq_spec raw.args
      (fun a ha _ => h a ha)]
    rfl

/-- Witness for C10, at a concrete action whose argument has one input
type. -/
theorem claim_C10_first_input_type_total_witness :
    (∀ a ∈ foobarField.args, a.inputTypes ≠ []) ∧
    (isOkE (mkExtendedDMMFSchemaField PRISMA_ACTION_ARRAY PRISMA_ACTION_ARG_MAP
        cfgDefault foobarField []) = true ∧
      isOkE (getTypeForCustomArgsType foobarField.args) = true) :=
  ⟨by decide, claim_C10_first_input_type_total PRISMA_ACTION_ARRAY PRISMA_ACTION_ARG_MAP
    cfgDefault foobarField [] (by decide)⟩

/-- C5: for every model whose documentation contains a directive marker whose
type tag is not the literal keyword `import`, construction fails with the
error message naming the owning model, and no model value is produced. -/
theorem claim_C5_bad_tag_fatal (cfg : GeneratorConfig) (r : RawModel) (d : Str)
    (m : DirectiveMatch)
    (hdoc : r.documentation = some d)
    (hm : matchImport d = some m)
    (hty : m.typeTag ≠ "import".toList) :
    mkExtendedDMMFModel cfg r = .error (errMsg m.typeTag (errLoc r.name)) ∧
    jsIncludes (errMsg m.typeTag (errLoc r.name)) r.name = true := by
  have hdne : d.isEmpty = false := by
    cases d with
    | nil => exact absurd hm (by simp [matchImport])
    | cons c cs => rfl
  have hex : extractZodDirectives (some d) (errLoc r.name) =
      .error (errMsg m.typeTag (errLoc r.name)) := by
    simp only [extractZodDirectives]
    rw [hdne, hm]
    simp [hty]
    intro hcontra
    exact absurd hcontra hty
  constructor
  · simp only [mkExtendedDMMFModel]
    rw [hdoc, hex]
    rfl
  · have hshape : errMsg m.typeTag (errLoc r.name) =
        ("[@zod generator error]: ".toList ++ ap ++ m.typeTag ++ ap ++
          " is not a valid validator key. ".toList ++
          "[Error Location]: Model: ".toList ++ ap) ++
        (r.name ++ (ap ++ ".".toList)) := by
      simp [errMsg, errLoc, List.append_assoc]
    rw [hshape]
    exact jsIncludes_parts _ _ _

/-- Witness for C5, at a concrete model whose documentation carries the tag
`custom`. -/
theorem claim_C5_bad_tag_fatal_witness :
    (badTagRawModel.documentation = some "some text @zod.custom".toList ∧
      matchImport "some text @zod.custom".toList =
        some { matched := "@zod.custom".toList, typeTag := "custom".toList
             , payload := none } ∧
      "custom".toList ≠ "import".toList) ∧
    (mkExtendedDMMFModel cfgDefault badTagRawModel =
        .error (errMsg "custom".toList (errLoc badTagRawModel.name)) ∧
      jsIncludes (errMsg "custom".toList (errLoc badTagRawModel.name))
        badTagRawModel.name = true) :=
  ⟨⟨rfl, by decide, by decide⟩,
    claim_C5_bad_tag_fatal cfgDefault badTagRawModel "some text @zod.custom".toList
      { matched := "@zod.custom".toList, typeTag := "custom".toList, payload := none }
      rfl (by decide) (by decide)⟩

/-- C6 counterexample: a documentation consisting of the same well-formed
directive twice is successfully extracted, but only the matched directive
substring (its first occurrence) is removed, so the cleared documentation is
the remaining directive and a second extraction still finds a directive
rather than returning no directive. -/
theorem claim_C6_counterexample :
    extractZodDirectives (some doubleDirectiveDoc) (errLoc "M".toList) =
      .ok (some { statements := [oneDirectiveStatement]
                , clearedDocumentation := oneDirective }) ∧
    extractZodDirectives (some oneDirective) (errLoc "M".toList) =
      .ok (some { statements := [oneDirectiveStatement]
                , clearedDocumentation := [] }) ∧
    extractZodDirectives (some oneDirective) (errLoc "M".toList) ≠ .ok none :=
  ⟨by decide, by decide, by decide⟩

/-- C6 amended: re-running extraction on the cleared documentation returns
`no directive` provided the cleared documentation no longer contains the
directive marker `@zod.`; in general only the first occurrence of the matched
directive substring is removed, so a second marker survives clearing and is
found again by re-extraction. -/
theorem claim_C6_idempotent_if_single (doc loc loc2 : Str) (zd : ZodDirectives)
    (_hok : extractZodDirectives (some doc) loc = .ok (some zd))
    (h2 : jsIncludes zd.clearedDocumentation "@zod.".toList = false) :
    extractZodDirectives (some zd.clearedDocumentation) loc2 = .ok none := by
  have hmi := matchImport_eq_none h2
  cases hcd : zd.clearedDocumentation with
  | nil => rfl
  | cons c cs =>
    rw [hcd] at hmi
    simp [extractZodDirectives, hmi]

/-- Witness for the amended C6, at a documentation with one directive. -/
theorem claim_C6_idempotent_if_single_witness :
    (extractZodDirectives (some singleDirectiveDoc) (errLoc "M".toList) =
        .ok (some singleDirectiveExtract) ∧
      jsIncludes singleDirectiveExtract.clearedDocumentation "@zod.".toList = false) ∧
    extractZodDirectives (some singleDirectiveExtract.clearedDocumentation)
      (errLoc "M".toList) = .ok none :=
  ⟨⟨by decide, by decide⟩,
    claim_C6_idempotent_if_single singleDirectiveDoc (errLoc "M".toList)
      (errLoc "M".toList) singleDirectiveExtract (by decide) (by decide)⟩

theorem count_eq_one_of_nodup_mem : ∀ {l : List Str} {s : Str},
    l.Nodup → s ∈ l → l.count s = 1 := by
  intro l
  induction l with
  | nil => intro s _ hm; cases hm
  | cons a t ih =>
    intro s hn hm
    rw [List.count_cons]
    rcases List.mem_cons.1 hm with rfl | hmem
    · have hz : t.count s = 0 := by
        rw [List.count_eq_zero]
        exact (List.nodup_cons.1 hn).1
      simp [hz]
    · have hne : s ≠ a := by
        rintro rfl
        exact (List.nodup_cons.1 hn).1 hmem
      have hc := ih (List.nodup_cons.1 hn).2 hmem
      simp [hc, hne.symm]

theorem getAutomaticImports_eq_spec (cfg : GeneratorConfig)
    (flds : List ExtendedDMMFField) :
    getAutomaticImports cfg flds (flds.filter (fun f => f.kind = "enum".toList)) =
      specAutomaticImports cfg flds := by
  unfold getAutomaticImports specAutomaticImports
  simp [List.any_eq_true, Bool.and_eq_true]

/-- C4: for every constructed model, the final import list is the
insertion-order deduplication — by exact string equality — of the
directive-derived statements `D` followed by the automatic statements `A`;
the automatic statements are generated in the fixed spec order (nullable-JSON
helper, input-JSON helper, database-client import, one enum-schema import per
enum field, see `specAutomaticImports`); the final list has no duplicates,
preserves first-seen order (it is a sublist of `D ++ A`), contains exactly
the statements of `D ++ A`, and in particular a statement occurring twice in
`D ++ A` yields exactly one entry. -/
theorem claim_C4_import_set (cfg : GeneratorConfig) (r : RawModel)
    (M : ExtendedDMMFModel) (zd : Option ZodDirectives) (D A : List Str)
    (hzd : extractZodDirectives r.documentation (errLoc r.name) = .ok zd)
    (hM : mkExtendedDMMFModel cfg r = .ok M)
    (hD : D = (zd.map (fun z => z.statements)).getD [])
    (hA : A = getAutomaticImports cfg (r.fields.map mkExtendedDMMFField)
      ((r.fields.map mkExtendedDMMFField).filter (fun f => f.kind = "enum".toList))) :
    M.imports = jsSet (D ++ A) ∧
    A = specAutomaticImports cfg (r.fields.map mkExtendedDMMFField) ∧
    M.imports.Nodup ∧
    List.Sublist M.imports (D ++ A) ∧
    (∀ s, s ∈ M.imports ↔ s ∈ D ++ A) ∧
    (∀ s ∈ D ++ A, M.imports.count s = 1) := by
  obtain ⟨zd', hzd', hname, hfields, hsc, hrel, hen, him, hdocc⟩ := mkModel_ok hM
  have hzz : zd' = zd := Except.ok.inj (hzd'.symm.trans hzd)
  subst hzz
  rw [hen, hfields] at him
  have h1 : M.imports = jsSet (D ++ A) := by
    rw [hD, hA]
    exact him
  refine ⟨h1, ?_, ?_, ?_, ?_, ?_⟩
  · rw [hA]
    exact getAutomaticImports_eq_spec cfg _
  · rw [h1]
    exact jsSet_nodup _
  · rw [h1]
    exact jsSet_sublist _
  · intro s
    rw [h1]
    exact jsSet_mem _ s
  · intro s hs
    rw [h1]
    exact count_eq_one_of_nodup_mem (jsSet_nodup _) ((jsSet_mem _ s).2 hs)

/-- Witness for C4, at a concrete model with two enum fields of the same enum
type (so the same logical import statement is generated twice and collapses
to one entry). -/
theorem claim_C4_import_set_witness :
    (extractZodDirectives twoEnumRawModel.documentation (errLoc twoEnumRawModel.name) =
        .ok none ∧
      mkExtendedDMMFModel cfgDefault twoEnumRawModel = .ok twoEnumModel ∧
      ([] : List Str) = ((none : Option ZodDirectives).map
        (fun z => z.statements)).getD [] ∧
      [enumSchemaImport "Role".toList, enumSchemaImport "Role".toList] =
        getAutomaticImports cfgDefault (twoEnumRawModel.fields.map mkExtendedDMMFField)
          ((twoEnumRawModel.fields.map mkExtendedDMMFField).filter
            (fun f => f.kind = "enum".toList))) ∧
    (twoEnumModel.imports = jsSet (([] : List Str) ++
        [enumSchemaImport "Role".toList, enumSchemaImport "Role".toList]) ∧
      [enumSchemaImport "Role".toList, enumSchemaImport "Role".toList] =
        specAutomaticImports cfgDefault (twoEnumRawModel.fields.map mkExtendedDMMFField) ∧
      twoEnumModel.imports.Nodup ∧
      List.Sublist twoEnumModel.imports (([] : List Str) ++
        [enumSchemaImport "Role".toList, enumSchemaImport "Role".toList]) ∧
      (∀ s, s ∈ twoEnumModel.imports ↔ s ∈ ([] : List Str) ++
        [enumSchemaImport "Role".toList, enumSchemaImport "Role".toList]) ∧
      (∀ s ∈ ([] : List Str) ++
          [enumSchemaImport "Role".toList, enumSchemaImport "Role".toList],
        twoEnumModel.imports.count s = 1)) :=
  ⟨⟨by decide, by rfl, rfl, by decide⟩,
    claim_C4_import_set cfgDefault twoEnumRawModel twoEnumModel none
      [] [enumSchemaImport "Role".toList, enumSchemaImport "Role".toList]
      (by decide) (by rfl) rfl (by decide)⟩
